import Mathlib

/-!
Verification of the line-classification utilities of `src/common/Utils.ts`
(the ApexDox line classifier).  Lines are modelled as `List Char`; the
JavaScript string operations and the regular expressions used by the source
are embedded as executable functions on `List Char`.

Conventions:
  * JS `String.prototype.toLowerCase` is modelled by mapping `Char.toLower`
    (ASCII case mapping, which agrees with JS on the keyword alphabet used
    by the classifier).
  * JS `\w` is `[A-Za-z0-9_]`, JS `\s` is the ECMAScript whitespace set,
    JS `.` is any character except line terminators.
  * The ambient `ApexDoc.config.scope` array is passed explicitly as the
    `scopes` argument (the spec presents `getScope(line, scopeConfig)` as
    the external interface).
-/

/-- JS word character class `\w` = `[A-Za-z0-9_]`. -/
def isWordChar (c : Char) : Bool := c.isAlphanum || c == '_'

/-- ECMAScript whitespace class `\s` (also the set removed by `String.trim`). -/
def isJsSpace (c : Char) : Bool :=
  c == ' ' || c == '\t' || c == '\n' || c == '\r' ||
  c.toNat == 0x0b || c.toNat == 0x0c || c.toNat == 0xa0 || c.toNat == 0x1680 ||
  (0x2000 ≤ c.toNat && c.toNat ≤ 0x200a) || c.toNat == 0x2028 || c.toNat == 0x2029 ||
  c.toNat == 0x202f || c.toNat == 0x205f || c.toNat == 0x3000 || c.toNat == 0xfeff

/-- JS regex `.` (without the `s` flag): any character except a line terminator. -/
def isRegexDot (c : Char) : Bool :=
  !(c == '\n' || c == '\r' || c.toNat == 0x2028 || c.toNat == 0x2029)

/-- `line.toLowerCase()`. -/
def lowerL (l : List Char) : List Char := l.map Char.toLower

/-- `line.startsWith(p)`: first argument is the line, second the prefix. -/
def startsWithL : List Char → List Char → Bool
  | _, [] => true
  | [], _ :: _ => false
  | c :: cs, p :: ps => c == p && startsWithL cs ps

/-- Drop the literal prefix `p` from `l`, returning the rest on success. -/
def dropPrefixL : List Char → List Char → Option (List Char)
  | [], l => some l
  | _ :: _, [] => none
  | p :: ps, c :: cs => if p == c then dropPrefixL ps cs else none

/-- `line.includes(sub)` (substring search). -/
def includesL : List Char → List Char → Bool
  | [], sub => startsWithL [] sub
  | c :: cs, sub => startsWithL (c :: cs) sub || includesL cs sub

/-- `line.trim()`: remove leading and trailing JS whitespace. -/
def trimL (l : List Char) : List Char :=
  ((l.dropWhile isJsSpace).reverse.dropWhile isJsSpace).reverse

/-- Character class of the annotation-argument body
`[\w=.*''/\s]` in the stripping regex (the two quote characters are a
literal apostrophe listed twice). -/
def isAnnBodyChar (c : Char) : Bool :=
  isWordChar c || c == '=' || c == '.' || c == '*' || c == Char.ofNat 39 ||
  c == '/' || isJsSpace c

/-- Match of the regex `@\w+\s*(\([\w=.*''/\s]+\))?` at the head of `l`:
`@`, one or more word characters (greedy), optional whitespace (greedy),
then optionally a parenthesized non-empty run of body characters.  Returns
the remainder after the match, or `none` when the pattern does not match at
this position. -/
def annMatchAt : List Char → Option (List Char)
  | '@' :: c :: cs =>
    if isWordChar c then
      let r1 := cs.dropWhile isWordChar
      let r2 := r1.dropWhile isJsSpace
      match r2 with
      | '(' :: inner =>
        match inner.dropWhile isAnnBodyChar with
        | ')' :: tail =>
          if (inner.takeWhile isAnnBodyChar).isEmpty then some r2 else some tail
        | _ => some r2
      | _ => some r2
    else none
  | _ => none

/-- `line.replace(/@\w+\s*(\([\w=.*''/\s]+\))?/, '')`: remove the leftmost
match of the annotation pattern (a `@` followed by a word character), if any. -/
def replaceFirstAnn : List Char → List Char
  | [] => []
  | c :: cs =>
    match annMatchAt (c :: cs) with
    | some rest => rest
    | none => c :: replaceFirstAnn cs

/-- Loop guard of `stripAnnotations`: `line && line.trim().startsWith('@')`. -/
def stripCond (l : List Char) : Bool :=
  !l.isEmpty && startsWithL (trimL l) (("@").data)

/-- Loop body of `stripAnnotations`: `line = line.trim().replace(..., '')`. -/
def stepStrip (l : List Char) : List Char := replaceFirstAnn (trimL l)

/-- The `while` loop of `stripAnnotations`, with `fuel = 100 - i`: the source
counts `i` upward from 0 and executes `break` when `i >= 100` is observed
right after a replacement, so at most 101 replacements happen (`fuel = 0`
performs the final permitted replacement and stops). -/
def stripAnnLoop : Nat → List Char → List Char
  | 0, l => if stripCond l then stepStrip l else l
  | f + 1, l => if stripCond l then stripAnnLoop f (stepStrip l) else l

/-- `Utils.stripAnnotations`: repeatedly remove a leading annotation while the
trimmed line still starts with `@`, with the iteration cap of the source
(`i >= 100` checked after each replacement). -/
def stripAnnotations (line : List Char) : List Char := stripAnnLoop 100 line

/-- Character at index `i` of the line, if in range. -/
def wordAtIdx (l : List Char) (i : Nat) : Bool :=
  match l.get? i with
  | some c => isWordChar c
  | none => false

/-- JS regex word-boundary assertion `\b` at position `i` of `l`: the
word-character status changes between position `i - 1` (start of string
counts as non-word) and position `i` (end of string counts as non-word). -/
def wordBoundaryAt (l : List Char) (i : Nat) : Bool :=
  (match i with
   | 0 => false
   | j + 1 => wordAtIdx l j) != wordAtIdx l i

/-- Match of `\btok\b` at position `i` of `l` (word boundary on both sides). -/
def wordTokenAt (tok l : List Char) (i : Nat) : Bool :=
  wordBoundaryAt l i &&
    (match dropPrefixL tok (l.drop i) with
     | some [] => true
     | some (c :: _) => !isWordChar c
     | none => false)

/-- Match of `\binterface\s` at position `i` of `l`: word boundary, the
literal `interface`, then one whitespace character.  The `\s?` that precedes
`\b` in the source regex is semantically inert for `.test` (an optional
prefix before a zero-width assertion adds no matches) and is omitted. -/
def ifaceTokenAt (l : List Char) (i : Nat) : Bool :=
  wordBoundaryAt l i &&
    (match dropPrefixL (("interface").data) (l.drop i) with
     | some (c :: _) => isJsSpace c
     | _ => false)

/-- `Utils.isClassOrInterface`:
`/.*\bclass\b.*/.test(line.toLowerCase()) || /\s?\binterface\s/i.test(line.toLowerCase())`.
`RegExp.test` succeeds iff the pattern matches at some position; the
`.*` wrappers of the first regex are absorbed by that search. -/
def isClassOrInterface (line : List Char) : Bool :=
  let l := lowerL line
  (List.range (l.length + 1)).any (fun i => wordTokenAt (("class").data) l i) ||
    (List.range (l.length + 1)).any (fun i => ifaceTokenAt l i)

/-- Reading of claim C7 (word-boundary token `class` or word-boundary token
`interface` anywhere in the lowercased line); follows the claim text, for
comparison with `isClassOrInterface`. -/
def classOrInterfaceClaim (line : List Char) : Bool :=
  let l := lowerL line
  (List.range (l.length + 1)).any (fun i => wordTokenAt (("class").data) l i) ||
    (List.range (l.length + 1)).any (fun i => wordTokenAt (("interface").data) l i)

/-- Match of `enum\b` at the head of `l`. -/
def enumAtStart (l : List Char) : Bool :=
  match dropPrefixL (("enum").data) l with
  | some [] => true
  | some (c :: _) => !isWordChar c
  | none => false

/-- `\s+` at the head of `l`: requires at least one whitespace character and
consumes the whole run, returning the rest. -/
def dropWs1 : List Char → Option (List Char)
  | [] => none
  | c :: cs => if isJsSpace c then some (cs.dropWhile isJsSpace) else none

/-- One alternative `m\s+enum\b` of the enum regex, anchored at the head. -/
def modThenEnum (m l : List Char) : Bool :=
  match dropPrefixL m l with
  | some r1 =>
    (match dropWs1 r1 with
     | some r2 => enumAtStart r2
     | none => false)
  | none => false

/-- The anchored regex `^(global\s+|public\s+|private\s+)?enum\b.*` (the
trailing `.*` is unconstraining). -/
def enumDeclMatch (l : List Char) : Bool :=
  enumAtStart l || modThenEnum (("global").data) l ||
    modThenEnum (("public").data) l || modThenEnum (("private").data) l

/-- `Utils.isEnum`: strip annotations first, then test the anchored enum
regex (case-sensitively; the source does not lowercase here). -/
def isEnum (line : List Char) : Bool := enumDeclMatch (stripAnnotations line)

/-- `Utils.PRIVATE`. -/
def PRIVATE : List Char := ("private").data

/-- `Utils.TEST_METHOD`. -/
def TEST_METHOD : List Char := ("testmethod").data

/-- `Utils.COLLECTIONS`. -/
def COLLECTIONS : List (List Char) := [("list").data, ("set").data, ("map").data]

/-- `Utils.KEYWORDS`. -/
def KEYWORDS : List (List Char) :=
  [("abstract").data, ("final").data, ("virtual").data, ("override").data,
   ("void").data, ("blob").data, ("boolean").data, ("date").data,
   ("datetime").data, ("decimal").data, ("double").data, ("id").data,
   ("integer").data, ("long").data, ("object").data, ("string").data,
   ("time").data]

/-- Per-iteration normalization of `getScope`:
`this.stripAnnotations(line).toLowerCase().trim()`. -/
def normalizeLine (l : List Char) : List Char :=
  trimL (lowerL (stripAnnotations l))

/-- The `for (let scope of ApexDoc.config.scope)` loop of `getScope`.  The
line variable is re-normalized and carried across iterations exactly as the
source mutates `line`; the pair returns the loop result together with the
final value of `line` (used afterwards by the implicit-private fallback). -/
def getScopeLoop : List Char → List (List Char) → Option (List Char) × List Char
  | line, [] => (none, line)
  | line, s :: rest =>
    let l := normalizeLine line
    let sc := lowerL s
    if startsWithL l (sc ++ [' ']) then (some sc, l)
    else if sc == TEST_METHOD && startsWithL l (("static testmethod ").data) then (some sc, l)
    else getScopeLoop l rest

/-- Search of the suffix of `^coll<.+>\s.*` after the mandatory first `.`:
zero or more `.`-characters, then `>`, then one whitespace character.  The
disjunction mirrors the backtracking of the greedy `.+`. -/
def gtWsSearch : List Char → Bool
  | [] => false
  | c :: cs =>
    (c == '>' && (match cs with | w :: _ => isJsSpace w | [] => false)) ||
      (isRegexDot c && gtWsSearch cs)

/-- The anchored regex `new RegExp('^' + collection + '<.+>\\s.*')`. -/
def collMatch (coll l : List Char) : Bool :=
  match dropPrefixL coll l with
  | some ('<' :: rest) =>
    (match rest with
     | c :: cs => isRegexDot c && gtWsSearch cs
     | [] => false)
  | _ => false

/-- Implicit-private fallback of `getScope`, applied to the final value of
the loop variable `line` when no configured scope matched. -/
def getScopeFallback (scopes : List (List Char)) (l : List Char) : Option (List Char) :=
  if scopes.contains PRIVATE then
    if startsWithL l (("static ").data) && !includesL l ((" testmethod ").data) then
      some PRIVATE
    else if KEYWORDS.any (fun k => startsWithL l (k ++ [' ']) && l.contains '(') then
      some PRIVATE
    else if COLLECTIONS.any (fun c => collMatch c l && l.contains '(') then
      some PRIVATE
    else none
  else none

/-- `Utils.getScope`.  The scope configuration `ApexDoc.config.scope` is the
explicit `scopes` parameter; `none` models the implicit `undefined` return. -/
def getScope (line : List Char) (scopes : List (List Char)) : Option (List Char) :=
  match getScopeLoop line scopes with
  | (some sc, _) => some sc
  | (none, l) => getScopeFallback scopes l

/-- JS truthiness test `!this.getScope(line)`: `undefined` and the empty
string are both falsy. -/
def jsFalsyScope (r : Option (List Char)) : Bool :=
  match r with
  | none => true
  | some s => s.isEmpty

/-- Classification result sanity used by claim C9: the result is either the
`none` sentinel or a non-empty scope string. -/
def scopeResultNonEmpty (r : Option (List Char)) : Bool :=
  match r with
  | none => true
  | some sc => !sc.isEmpty

/-- The class-context descriptor (`ClassModel`) as consumed by
`shouldSkipLine`: only the qualified name and the interface flag are used. -/
structure ClassModel where
  name : List Char
  isInterface : Bool

/-- `name.split('.')` (single-character separator; always non-empty). -/
def splitOnDot : List Char → List (List Char)
  | [] => [[]]
  | c :: cs =>
    match splitOnDot cs with
    | [] => [[c]]
    | h :: t => if c == '.' then [] :: h :: t else (c :: h) :: t

/-- The exported `last` helper:
`arr.length > 1 ? arr[arr.length - 1] : arr[0]`. -/
def last (arr : List (List Char)) : List Char :=
  if arr.length > 1 then arr.getLastD [] else arr.headD []

/-- Test of the dynamically built regex `'\\b' + className + '\\s*\\('`
against the raw line: some position carries a word boundary, the literal
class name, optional whitespace, and an opening parenthesis. -/
def ctorTokenAt (name l : List Char) (i : Nat) : Bool :=
  wordBoundaryAt l i &&
    (match dropPrefixL name (l.drop i) with
     | some rest => startsWithL (rest.dropWhile isJsSpace) (['('])
     | none => false)

/-- `new RegExp('\\b' + className + '\\s*\\(').test(line)`. -/
def ctorTest (name l : List Char) : Bool :=
  (List.range (l.length + 1)).any (ctorTokenAt name l)

/-- Modelled from the spec: `ApexDoc.ENUM`, the enum declaration keyword.
The `ApexDoc` module is not part of the sources; §4.4 of the spec keeps
lines whose lowercased text starts with the enum keyword plus a space. -/
def ENUM : List Char := ("enum").data

/-- Modelled from the spec: `ApexDoc.CLASS`, the class declaration keyword
(see `ENUM`). -/
def CLASS : List Char := ("class").data

/-- Modelled from the spec: `ApexDoc.INTERFACE`, the interface declaration
keyword (see `ENUM`). -/
def INTERFACE : List Char := ("interface").data

/-- `Utils.shouldSkipLine`.  `cModel` is the optional class context; the
ambient scope configuration is the explicit `scopes` parameter. -/
def shouldSkipLine (line : List Char) (cModel : Option ClassModel)
    (scopes : List (List Char)) : Bool :=
  let classNameParts :=
    match cModel with
    | some m => splitOnDot m.name
    | none => [[]]
  let className := last classNameParts
  if jsFalsyScope (getScope line scopes)
      && !startsWithL (lowerL line) (ENUM ++ [' '])
      && !startsWithL (lowerL line) (CLASS ++ [' '])
      && !startsWithL (lowerL line) (INTERFACE ++ [' '])
      && !(cModel.isSome && ctorTest className line)
      && !(match cModel with
           | some m => m.isInterface && line.contains '('
           | none => false)
  then true
  else false

/-- Loop of `Utils.previousWord`:
`for (idxStart = searchIdx - 1, idxEnd = 0; idxStart > 0; idxStart--)`,
where a non-space character first fixes `idxEnd = idxStart + 1` and a later
space breaks with `idxStart++`.  Returns the final `(idxStart, idxEnd)`. -/
def pwLoop (s : List Char) : Nat → Nat → Nat × Nat
  | 0, idxEnd => (0, idxEnd)
  | j + 1, idxEnd =>
    if idxEnd == 0 then
      if s.get? (j + 1) == some ' ' then pwLoop s j idxEnd
      else pwLoop s j (j + 2)
    else if s.get? (j + 1) == some ' ' then (j + 2, idxEnd)
    else pwLoop s j idxEnd

/-- JS `str.substring(a, b)` (clamping and argument swapping). -/
def jsSubstring (s : List Char) (a b : Nat) : List Char :=
  if a ≤ b then (s.take b).drop a else (s.take a).drop b

/-- `Utils.previousWord`.  A zero index makes the source loop start at
`idxStart = -1`, so the loop body never runs and `substring(-1, 0)` clamps
to the empty string. -/
def previousWord (s : List Char) (searchIdx : Nat) : List Char :=
  if s.isEmpty then []
  else if s.length ≤ searchIdx then []
  else
    match searchIdx with
    | 0 => []
    | k + 1 =>
      let p := pwLoop s k 0
      jsSubstring s p.1 p.2

/-- Suffix condition of `enum\b`: end of input or a non-word character. -/
def boundaryAfterWord : List Char → Bool
  | [] => true
  | c :: _ => !isWordChar c

/-- The three optional access modifiers of the enum regex. -/
def enumModifiers : List (List Char) :=
  [("global").data, ("public").data, ("private").data]

/-- Input refuting idempotence of `stripAnnotations`: 103 leading `@a`
annotations, two more than the capped loop can remove. -/
def c5Input : List Char := (List.replicate 103 ['@', 'a']).flatten

/-! ### Helper lemmas -/

/-- The head of a `dropWhile` result does not satisfy the predicate. -/
theorem dropWhile_head_false (p : Char → Bool) (l : List Char) {c : Char}
    {cs : List Char} (h : l.dropWhile p = c :: cs) : p c = false := by
  induction l with
  | nil => simp [List.dropWhile] at h
  | cons a l ih =>
    rw [List.dropWhile_cons] at h
    split at h
    · exact ih h
    · rename_i hpa
      injection h with h1 h2
      subst h1
      simpa using hpa

/-- Dropping a prefix from a list ending in a kept element keeps that element
last. -/
theorem dw_concat (p : Char → Bool) (u : List Char) (c : Char) (hc : p c = false) :
    ∃ v, (u ++ [c]).dropWhile p = v ++ [c] := by
  induction u with
  | nil => exact ⟨[], by simp [List.dropWhile_cons, hc]⟩
  | cons a u ih =>
    rw [List.cons_append, List.dropWhile_cons]
    split
    · exact ih
    · exact ⟨a :: u, by simp⟩

/-- A trimmed line never starts with a space character. -/
theorem trimL_head_not_space (x : List Char) : startsWithL (trimL x) ([' ']) = false := by
  unfold trimL
  cases hn : x.dropWhile isJsSpace with
  | nil => rfl
  | cons c cs =>
    have hc : isJsSpace c = false := dropWhile_head_false isJsSpace x hn
    rw [List.reverse_cons]
    obtain ⟨v, hv⟩ := dw_concat isJsSpace cs.reverse c hc
    rw [hv, List.reverse_append]
    show (c == ' ' && startsWithL v.reverse []) = false
    cases hce : c == ' '
    · simp
    · exfalso
      have hcs : c = ' ' := eq_of_beq hce
      rw [hcs] at hc
      exact absurd hc (by decide)

/-- Specification of `dropPrefixL`. -/
theorem dropPrefixL_eq_some (p : List Char) :
    ∀ (l r : List Char), dropPrefixL p l = some r ↔ l = p ++ r := by
  induction p with
  | nil => intro l r; simp [dropPrefixL]
  | cons a p ih =>
    intro l r
    cases l with
    | nil => simp [dropPrefixL]
    | cons c cs =>
      by_cases hac : a = c
      · subst hac
        simp [dropPrefixL, ih]
      · simp [dropPrefixL, beq_iff_eq, hac, Ne.symm hac]

/-- A loop with a false guard returns its input unchanged. -/
theorem stripAnnLoop_cond_false (fuel : Nat) (l : List Char)
    (h : stripCond l = false) : stripAnnLoop fuel l = l := by
  cases fuel with
  | zero => simp [stripAnnLoop, h]
  | succ f => simp [stripAnnLoop, h]

/-- When the configuration does not contain the `private` entry, the
implicit-private fallback yields no match. -/
theorem getScopeFallback_not_private (scopes : List (List Char)) (l : List Char)
    (h : scopes.contains PRIVATE = false) : getScopeFallback scopes l = none := by
  unfold getScopeFallback
  rw [h]
  simp

/-- The fallback only ever produces the sentinel or the non-empty scope
`private`. -/
theorem getScopeFallback_nonEmpty (scopes : List (List Char)) (l : List Char) :
    scopeResultNonEmpty (getScopeFallback scopes l) = true := by
  unfold getScopeFallback
  split
  · split
    · decide
    · split
      · decide
      · split
        · decide
        · decide
  · decide

/-- Shape of a successful explicit-keyword match of `getScope`: the
normalized line starts with the matched scope followed by a space, or the
scope is `testmethod` and the line starts with `static testmethod `. -/
theorem getScopeLoop_some_shape :
    ∀ (scopes : List (List Char)) (line sc l : List Char),
      getScopeLoop line scopes = (some sc, l) →
      (startsWithL l (sc ++ [' ']) = true ∨
        (sc = TEST_METHOD ∧ startsWithL l (("static testmethod ").data) = true)) ∧
        ∃ m, l = normalizeLine m := by
  intro scopes
  induction scopes with
  | nil =>
    intro line sc l h
    simp [getScopeLoop] at h
  | cons s rest ih =>
    intro line sc l h
    simp only [getScopeLoop] at h
    split at h
    · rename_i hcond
      rw [Prod.mk.injEq] at h
      obtain ⟨h1, h2⟩ := h
      rw [Option.some.injEq] at h1
      subst h1
      subst h2
      exact ⟨Or.inl hcond, line, rfl⟩
    · split at h
      · rename_i hcond2
        rw [Prod.mk.injEq] at h
        obtain ⟨h1, h2⟩ := h
        rw [Option.some.injEq] at h1
        subst h1
        subst h2
        rw [Bool.and_eq_true] at hcond2
        obtain ⟨hts, hsw⟩ := hcond2
        exact ⟨Or.inr ⟨eq_of_beq hts, hsw⟩, line, rfl⟩
      · exact ih _ _ _ h

/-- Unrolling of the capped stripping loop into an explicit iteration count:
at most `fuel + 1` replacements happen, the guard held before every
performed replacement, and afterwards either the guard fails or the cap was
exhausted. -/
theorem stripAnnLoop_iterate :
    ∀ (fuel : Nat) (l : List Char), ∃ n, n ≤ fuel + 1 ∧
      stripAnnLoop fuel l = stepStrip^[n] l ∧
      (∀ k, k < n → stripCond (stepStrip^[k] l) = true) ∧
      (stripCond (stepStrip^[n] l) = false ∨ n = fuel + 1) := by
  intro fuel
  induction fuel with
  | zero =>
    intro l
    cases h : stripCond l with
    | false =>
      refine ⟨0, by omega, ?_, ?_, Or.inl ?_⟩
      · simp [stripAnnLoop, h]
      · intro k hk; omega
      · simpa [Function.iterate_zero_apply] using h
    | true =>
      refine ⟨1, by omega, ?_, ?_, Or.inr rfl⟩
      · simp [stripAnnLoop, h, Function.iterate_one]
      · intro k hk
        have hk0 : k = 0 := by omega
        subst hk0
        simpa [Function.iterate_zero_apply] using h
  | succ f ih =>
    intro l
    cases h : stripCond l with
    | false =>
      refine ⟨0, by omega, ?_, ?_, Or.inl ?_⟩
      · simp [stripAnnLoop, h]
      · intro k hk; omega
      · simpa [Function.iterate_zero_apply] using h
    | true =>
      obtain ⟨m, hm1, hm2, hm3, hm4⟩ := ih (stepStrip l)
      refine ⟨m + 1, by omega, ?_, ?_, ?_⟩
      · rw [Function.iterate_succ_apply, ← hm2]
        simp [stripAnnLoop, h]
      · intro k hk
        cases k with
        | zero => simpa [Function.iterate_zero_apply] using h
        | succ j =>
          rw [Function.iterate_succ_apply]
          exact hm3 j (by omega)
      · rw [Function.iterate_succ_apply]
        rcases hm4 with h4 | h4
        · exact Or.inl h4
        · exact Or.inr (by omega)

/-- A non-empty token cannot match at a position past the end of the line. -/
theorem wordTokenAt_bound {tok l : List Char} {i : Nat} (ht : tok.isEmpty = false)
    (h : wordTokenAt tok l i = true) : i < l.length + 1 := by
  by_contra hi
  have hle : l.length ≤ i := by omega
  unfold wordTokenAt at h
  rw [List.drop_eq_nil_of_le hle] at h
  rw [Bool.and_eq_true] at h
  obtain ⟨-, h2⟩ := h
  cases tok with
  | nil => simp at ht
  | cons a ts => simp [dropPrefixL] at h2

/-- The interface pattern cannot match at a position past the end of the
line. -/
theorem ifaceTokenAt_bound {l : List Char} {i : Nat} (h : ifaceTokenAt l i = true) :
    i < l.length + 1 := by
  by_contra hi
  have hle : l.length ≤ i := by omega
  unfold ifaceTokenAt at h
  rw [List.drop_eq_nil_of_le hle] at h
  rw [Bool.and_eq_true] at h
  obtain ⟨-, h2⟩ := h
  have hn : dropPrefixL (("interface").data) ([] : List Char) = none := by decide
  rw [hn] at h2
  simp at h2

/-- Specification of `dropWs1` (`\s+`): succeeds exactly when the input
starts with whitespace, returning the input with its whitespace run
removed. -/
theorem dropWs1_eq_some (r1 r2 : List Char) :
    dropWs1 r1 = some r2 ↔
      ((r1.takeWhile isJsSpace).isEmpty = false ∧ r2 = r1.dropWhile isJsSpace) := by
  cases r1 with
  | nil => simp [dropWs1, List.takeWhile]
  | cons c cs =>
    cases hc : isJsSpace c with
    | true =>
      simp [dropWs1, hc, List.takeWhile_cons, List.dropWhile_cons, eq_comm]
    | false =>
      simp [dropWs1, hc, List.takeWhile_cons]

/-- Specification of `enumAtStart` (`enum\b` anchored at the head). -/
theorem enumAtStart_iff (l : List Char) :
    enumAtStart l = true ↔
      ∃ rest, l = ("enum").data ++ rest ∧ boundaryAfterWord rest = true := by
  unfold enumAtStart
  cases hd : dropPrefixL (("enum").data) l with
  | none =>
    constructor
    · intro h; simp at h
    · rintro ⟨rest, h1, -⟩
      have h2 := (dropPrefixL_eq_some _ _ _).mpr h1
      rw [hd] at h2
      exact Option.noConfusion h2
  | some r =>
    have hr : l = ("enum").data ++ r := (dropPrefixL_eq_some _ _ _).mp hd
    cases r with
    | nil =>
      constructor
      · intro _; exact ⟨[], hr, rfl⟩
      · intro _; rfl
    | cons c cs =>
      constructor
      · intro h
        refine ⟨c :: cs, hr, ?_⟩
        simpa [boundaryAfterWord] using h
      · rintro ⟨rest, h1, h2⟩
        have hre : c :: cs = rest := List.append_cancel_left (hr.symm.trans h1)
        rw [← hre] at h2
        simpa [boundaryAfterWord] using h2

/-- Specification of `modThenEnum` (`m\s+enum\b` anchored at the head). -/
theorem modThenEnum_iff (m l : List Char) :
    modThenEnum m l = true ↔
      ∃ r1 rest, l = m ++ r1 ∧ (r1.takeWhile isJsSpace).isEmpty = false ∧
        r1.dropWhile isJsSpace = ("enum").data ++ rest ∧
        boundaryAfterWord rest = true := by
  unfold modThenEnum
  cases hd : dropPrefixL m l with
  | none =>
    constructor
    · intro h; simp at h
    · rintro ⟨r1, rest, h1, -, -, -⟩
      have h2 := (dropPrefixL_eq_some _ _ _).mpr h1
      rw [hd] at h2
      exact Option.noConfusion h2
  | some r1 =>
    have hl : l = m ++ r1 := (dropPrefixL_eq_some _ _ _).mp hd
    cases hw : dropWs1 r1 with
    | none =>
      constructor
      · intro h; simp [hw] at h
      · rintro ⟨r1x, rest, h1, h2, h3, h4⟩
        have hre : r1 = r1x := List.append_cancel_left (hl.symm.trans h1)
        rw [← hre] at h2
        have hws : dropWs1 r1 = some (r1.dropWhile isJsSpace) :=
          (dropWs1_eq_some r1 _).mpr ⟨h2, rfl⟩
        rw [hw] at hws
        exact Option.noConfusion hws
    | some r2 =>
      obtain ⟨hne, hr2⟩ := (dropWs1_eq_some r1 r2).mp hw
      constructor
      · intro h
        have h2 : enumAtStart r2 = true := by simpa [hw] using h
        obtain ⟨rest, hrest, hb⟩ := (enumAtStart_iff r2).mp h2
        exact ⟨r1, rest, hl, hne, by rw [← hr2]; exact hrest, hb⟩
      · rintro ⟨r1x, rest, h1, h2, h3, h4⟩
        have hre : r1 = r1x := List.append_cancel_left (hl.symm.trans h1)
        rw [← hre] at h3
        have h5 : enumAtStart r2 = true :=
          (enumAtStart_iff r2).mpr ⟨rest, by rw [hr2, h3], h4⟩
        simpa [hw] using h5

/-! ### Claim theorems -/

/-- C1 (corrected), counterexample: under the configuration `["public"]`
no scope matches `"global class Foo {"`, and with no class context the line
is skipped (`shouldSkipLine` returns `true`), contradicting the claim that
it is kept: the line starts with `global `, not with the `class` keyword. -/
theorem shouldSkip_global_class_c1_cex :
    getScope (("global class Foo \x7b").data) [("public").data] = none ∧
    shouldSkipLine (("global class Foo \x7b").data) none [("public").data] = true :=
  ⟨by decide, by decide⟩

/-- C1 (amended): every line whose lowercased text starts with the enum,
class, or interface keyword followed by a space is kept by `shouldSkipLine`
(returns `false`), for every scope configuration and with no class context
supplied — but a line such as `"global class Foo {"`, which starts with an
access modifier rather than with one of those keywords, enjoys no such
guarantee. -/
theorem shouldSkip_declaration_kept_c1 :
    ∀ (line : List Char) (scopes : List (List Char)),
      (startsWithL (lowerL line) (ENUM ++ [' ']) ||
        startsWithL (lowerL line) (CLASS ++ [' ']) ||
        startsWithL (lowerL line) (INTERFACE ++ [' '])) = true →
      shouldSkipLine line none scopes = false := by
  intro line scopes h
  rw [Bool.or_eq_true, Bool.or_eq_true] at h
  unfold shouldSkipLine
  rcases h with (he | hc) | hi
  · simp [he]
  · simp [hc]
  · simp [hi]

/-- Witness for C1: a concrete line starting with `class ` is kept. -/
theorem shouldSkip_declaration_kept_c1_witness :
    shouldSkipLine (("class foo \x7b").data) none [] = false :=
  shouldSkip_declaration_kept_c1 (("class foo \x7b").data) [] (by decide)

/-- C2 (corrected), counterexample: `previousWord("int  count = 5;", 9)`
does not return `"count"`; it returns `"coun"` (the scan starts at index
`9 - 1 = 8`, so the character at index 9 is excluded). -/
theorem previousWord_count_c2_cex :
    (previousWord (("int  count = 5;").data) 9 == ("count").data) = false ∧
    previousWord (("int  count = 5;").data) 9 = ("coun").data :=
  ⟨by decide, by decide⟩

/-- C2 (amended): `previousWord` scans backward from `index - 1`, skips a
run of spaces, then collects contiguous non-space characters back to a space
or the string start — so the character at `index` itself is excluded:
`previousWord("int  count = 5;", 9)` returns `"coun"` (index 10 yields
`"count"`), and the empty string or an out-of-range index yields `""`. -/
theorem previousWord_scan_c2 :
    previousWord (("int  count = 5;").data) 9 = ("coun").data ∧
    previousWord (("int  count = 5;").data) 10 = ("count").data ∧
    previousWord ([] : List Char) 0 = [] ∧
    ∀ (s : List Char) (i : Nat), s.length ≤ i → previousWord s i = [] := by
  refine ⟨by decide, by decide, rfl, ?_⟩
  intro s i h
  simp [previousWord, h]

/-- Witness for C2: an out-of-range index yields the empty string. -/
theorem previousWord_scan_c2_witness :
    previousWord (("abc").data) 5 = [] :=
  previousWord_scan_c2.2.2.2 (("abc").data) 5 (by decide)

/-- C3 (confirmed): with configuration `["private"]`, `getScope` resolves
`"void calculate()"` to `private` (keyword start plus opening parenthesis)
and finds no match for `"void description"` (no parenthesis); and for every
line and configuration not containing the `private` entry, the
implicit-private fallback never fires — the result is exactly the result of
the explicit-keyword loop, hence no-match whenever no configured keyword
matches. -/
theorem getScope_private_fallback_c3 :
    getScope (("void calculate()").data) [("private").data] = some PRIVATE ∧
    getScope (("void description").data) [("private").data] = none ∧
    ∀ (line : List Char) (scopes : List (List Char)),
      scopes.contains PRIVATE = false →
      getScope line scopes = (getScopeLoop line scopes).1 := by
  refine ⟨by decide, by decide, ?_⟩
  intro line scopes h
  unfold getScope
  cases hl : getScopeLoop line scopes with
  | mk r l =>
    cases r with
    | some sc => simp
    | none => simp [getScopeFallback_not_private scopes l h]

/-- Witness for C3: a configuration without `private` leaves the loop
result unchanged. -/
theorem getScope_private_fallback_c3_witness :
    getScope (("void x()").data) [("public").data] =
      (getScopeLoop (("void x()").data) [("public").data]).1 :=
  getScope_private_fallback_c3.2.2 (("void x()").data) [("public").data] (by decide)

/-- C4 (confirmed): keyword matching of `getScope` is boundary-anchored:
whenever the explicit loop matches a configured scope, the normalized line
starts with that scope followed by a space (or is the `static testmethod `
special case); in particular keyword `public` does not match the line
`"publicly shared"`, while `getScope("public void foo()")` with
configuration `["public","private"]` resolves to `public`. -/
theorem getScope_boundary_anchored_c4 :
    getScope (("publicly shared").data) [("public").data] = none ∧
    getScope (("public void foo()").data) [("public").data, ("private").data] =
      some (("public").data) ∧
    ∀ (line : List Char) (scopes : List (List Char)) (sc l : List Char),
      getScopeLoop line scopes = (some sc, l) →
      startsWithL l (sc ++ [' ']) = true ∨
        (sc = TEST_METHOD ∧ startsWithL l (("static testmethod ").data) = true) := by
  refine ⟨by decide, by decide, ?_⟩
  intro line scopes sc l h
  exact (getScopeLoop_some_shape scopes line sc l h).1

/-- Witness for C4: the loop match for `"public void foo()"` satisfies the
boundary-anchoring disjunction. -/
theorem getScope_boundary_anchored_c4_witness :
    startsWithL (("public void foo()").data) ((("public").data) ++ [' ']) = true ∨
      ((("public").data) = TEST_METHOD ∧
        startsWithL (("public void foo()").data) (("static testmethod ").data) = true) :=
  getScope_boundary_anchored_c4.2.2 (("public void foo()").data) [("public").data]
    (("public").data) (("public void foo()").data) (by decide)

/-- C5 (corrected), counterexample: `stripAnnotations` is not idempotent on
pathological input.  On 103 leading `@a` annotations the capped loop (at
most 101 replacements) leaves `"@a@a"`, while a second application strips
the residue to the empty string. -/
theorem stripAnnotations_idempotent_c5_cex :
    stripAnnotations c5Input = ['@', 'a', '@', 'a'] ∧
    stripAnnotations (stripAnnotations c5Input) = [] ∧
    (stripAnnotations (stripAnnotations c5Input) == stripAnnotations c5Input) = false := by
  have h1 : stripAnnotations c5Input = ['@', 'a', '@', 'a'] := by decide
  refine ⟨h1, ?_, ?_⟩
  · rw [h1]; decide
  · rw [h1]; decide

/-- C5 (amended): `stripAnnotations` is idempotent on every input on which
the loop stops because its guard failed — that is, whenever the result is
empty or its trimmed form no longer starts with `@` (every input with at
most 101 leading annotations); only a cap-exhausted result, as in the
counterexample, escapes this. -/
theorem stripAnnotations_idempotent_settled_c5 :
    ∀ l : List Char, stripCond (stripAnnotations l) = false →
      stripAnnotations (stripAnnotations l) = stripAnnotations l := by
  intro l h
  unfold stripAnnotations
  exact stripAnnLoop_cond_false 100 _ h

/-- Witness for C5: a normally stripped line is a fixpoint. -/
theorem stripAnnotations_idempotent_settled_c5_witness :
    stripAnnotations (stripAnnotations (("@isTest void run()").data)) =
      stripAnnotations (("@isTest void run()").data) :=
  stripAnnotations_idempotent_settled_c5 (("@isTest void run()").data) (by decide)

/-- C6 (confirmed): `stripAnnotations` terminates on every input with an
explicit iteration count: some `n ≤ 101` replacements are performed (the
counter cap `i >= 100` is checked after each replacement, so the cap
permits one hundred and one), the guard — non-empty line whose trimmed form
starts with `@` — held before each of them, and afterwards either the guard
fails or the cap was reached (`n = 101`), in which case the function stops
silently with the line stripped as far as the cap allowed. -/
theorem stripAnnotations_bounded_iteration_c6 :
    ∀ line : List Char, ∃ n, n ≤ 101 ∧
      stripAnnotations line = stepStrip^[n] line ∧
      (∀ k, k < n → stripCond (stepStrip^[k] line) = true) ∧
      (stripCond (stepStrip^[n] line) = false ∨ n = 101) := by
  intro line
  simpa [stripAnnotations] using stripAnnLoop_iterate 100 line

/-- Witness for C6: the characterization instantiated at a concrete line. -/
theorem stripAnnotations_bounded_iteration_c6_witness :
    ∃ n, n ≤ 101 ∧
      stripAnnotations (("@isTest private void foo()").data) =
        stepStrip^[n] (("@isTest private void foo()").data) ∧
      (∀ k, k < n →
        stripCond (stepStrip^[k] (("@isTest private void foo()").data)) = true) ∧
      (stripCond (stepStrip^[n] (("@isTest private void foo()").data)) = false ∨
        n = 101) :=
  stripAnnotations_bounded_iteration_c6 (("@isTest private void foo()").data)

/-- C7 (corrected), counterexample: the line `"interface"` contains the
word-boundary token `interface`, yet `isClassOrInterface` rejects it — the
source regex `\binterface\s` demands a whitespace character after the
keyword, not a word boundary. -/
theorem isClassOrInterface_whole_word_c7_cex :
    classOrInterfaceClaim (("interface").data) = true ∧
    isClassOrInterface (("interface").data) = false :=
  ⟨by decide, by decide⟩

/-- C7 (amended): `isClassOrInterface` returns true exactly when the
lowercased line contains `class` with a word boundary on both sides, or
contains `interface` preceded by a word boundary and followed by a
whitespace character (so a trailing `interface` with nothing after it does
not count). -/
theorem isClassOrInterface_characterization_c7 :
    isClassOrInterface (("public class Foo \x7b").data) = true ∧
    isClassOrInterface (("subclassx y").data) = false ∧
    isClassOrInterface (("interface").data) = false ∧
    ∀ line, (isClassOrInterface line = true ↔
      (∃ i, wordTokenAt (("class").data) (lowerL line) i = true) ∨
      (∃ i, ifaceTokenAt (lowerL line) i = true)) := by
  refine ⟨by decide, by decide, by decide, ?_⟩
  intro line
  simp only [isClassOrInterface]
  rw [Bool.or_eq_true]
  simp only [List.any_eq_true, List.mem_range]
  constructor
  · rintro (⟨i, _, hp⟩ | ⟨i, _, hp⟩)
    · exact Or.inl ⟨i, hp⟩
    · exact Or.inr ⟨i, hp⟩
  · rintro (⟨i, hp⟩ | ⟨i, hp⟩)
    · exact Or.inl ⟨i, wordTokenAt_bound (by decide) hp, hp⟩
    · exact Or.inr ⟨i, ifaceTokenAt_bound hp, hp⟩

/-- Witness for C7: the characterization applied to a concrete line. -/
theorem isClassOrInterface_characterization_c7_witness :
    (∃ i, wordTokenAt (("class").data) (lowerL (("class x").data)) i = true) ∨
      (∃ i, ifaceTokenAt (lowerL (("class x").data)) i = true) :=
  (isClassOrInterface_characterization_c7.2.2.2 (("class x").data)).mp (by decide)

/-- C8 (confirmed): `isEnum` strips annotations first and then accepts
exactly the lines whose stripped form is `enum` at a word boundary,
optionally preceded by one access modifier (`global`, `public`, `private`)
and at least one whitespace character; concretely
`isEnum("public enum Color { RED, BLUE }")` is true and
`isEnum("public Enumerator getEnum()")` is false. -/
theorem isEnum_characterization_c8 :
    isEnum (("public enum Color \x7b RED, BLUE \x7d").data) = true ∧
    isEnum (("public Enumerator getEnum()").data) = false ∧
    ∀ line, (isEnum line = true ↔
      (∃ rest, stripAnnotations line = ("enum").data ++ rest ∧
        boundaryAfterWord rest = true) ∨
      (∃ m, m ∈ enumModifiers ∧ ∃ r1 rest,
        stripAnnotations line = m ++ r1 ∧
        (r1.takeWhile isJsSpace).isEmpty = false ∧
        r1.dropWhile isJsSpace = ("enum").data ++ rest ∧
        boundaryAfterWord rest = true)) := by
  refine ⟨by decide, by decide, ?_⟩
  intro line
  unfold isEnum enumDeclMatch
  generalize stripAnnotations line = l
  rw [Bool.or_eq_true, Bool.or_eq_true, Bool.or_eq_true, enumAtStart_iff,
    modThenEnum_iff, modThenEnum_iff, modThenEnum_iff]
  constructor
  · rintro (((h | h) | h) | h)
    · exact Or.inl h
    · exact Or.inr ⟨("global").data, by simp [enumModifiers], h⟩
    · exact Or.inr ⟨("public").data, by simp [enumModifiers], h⟩
    · exact Or.inr ⟨("private").data, by simp [enumModifiers], h⟩
  · rintro (h | ⟨m, hm, h⟩)
    · exact Or.inl (Or.inl (Or.inl h))
    · simp only [enumModifiers, List.mem_cons, List.mem_singleton,
        List.not_mem_nil, or_false] at hm
      rcases hm with rfl | rfl | rfl
      · exact Or.inl (Or.inl (Or.inr h))
      · exact Or.inl (Or.inr h)
      · exact Or.inr h

/-- Witness for C8: the characterization applied to an annotated enum
line. -/
theorem isEnum_characterization_c8_witness :
    (∃ rest, stripAnnotations (("@x enum Y").data) = ("enum").data ++ rest ∧
        boundaryAfterWord rest = true) ∨
      (∃ m, m ∈ enumModifiers ∧ ∃ r1 rest,
        stripAnnotations (("@x enum Y").data) = m ++ r1 ∧
        (r1.takeWhile isJsSpace).isEmpty = false ∧
        r1.dropWhile isJsSpace = ("enum").data ++ rest ∧
        boundaryAfterWord rest = true) :=
  (isEnum_characterization_c8.2.2 (("@x enum Y").data)).mp (by decide)

/-- C9 (confirmed): for every line and configuration the result of
`getScope` is either the `none` sentinel (a value distinct from any string,
in particular from the empty string) or a non-empty scope string — the
empty string is never returned as a resolved scope. -/
theorem getScope_no_empty_string_c9 :
    ∀ (line : List Char) (scopes : List (List Char)),
      scopeResultNonEmpty (getScope line scopes) = true := by
  intro line scopes
  unfold getScope
  cases hl : getScopeLoop line scopes with
  | mk r l =>
    cases r with
    | none => exact getScopeFallback_nonEmpty scopes l
    | some sc =>
      obtain ⟨hdisj, m, hm⟩ := getScopeLoop_some_shape scopes line sc l hl
      cases sc with
      | nil =>
        exfalso
        rcases hdisj with hsw | ⟨hts, -⟩
        · rw [hm] at hsw
          rw [List.nil_append] at hsw
          unfold normalizeLine at hsw
          rw [trimL_head_not_space (lowerL (stripAnnotations m))] at hsw
          exact Bool.false_ne_true hsw
        · exact absurd hts (by decide)
      | cons c cs => rfl

/-- C10 (confirmed): with the empty scope configuration `getScope` returns
the no-match sentinel for every line — the keyword loop runs zero times and
the implicit-private fallback is unreachable (`private` is not a member of
the empty configuration) — and the loop-carried line variable is returned
untouched, i.e. the per-iteration normalization is never applied. -/
theorem getScope_empty_config_c10 :
    ∀ line : List Char, getScope line [] = none ∧ (getScopeLoop line []).2 = line := by
  intro line
  exact ⟨rfl, rfl⟩
